import Mathlib

set_option maxRecDepth 8192

/-!
# Verification of the printbit coin-intake decoder

Shallow embedding of the coin-intake protocol decoder of
`src/services/serial.ts`, of the balance-mutating operations of
`src/routes/financial-routes.ts`, and of the serial connection
retry loop of `src/services/serial.ts`.

Conventions of the embedding:
* The mutable module-level decoder state (`pendingPrefix`, the scheduled
  timer, and `db.data.balance`) becomes the explicit record `DecoderState`.
  The field holding the armed digit is called `pending` here because the
  source's field name cannot be used verbatim in this file; it holds the
  same `"1" | "2" | null` value, as `Option String`.
* The `setTimeout` timer is represented by the arming time `armedAt`;
  the scheduled flush fires at `armedAt + FRAGMENT_WINDOW_MS`.  The driver
  `deliverLine` fires a due timer before handing a later-arriving line to
  the data handler, matching the event-loop ordering; `finishTimer` fires
  a still-pending timer once no further line arrives.
* Side effects (`io.emit`, socket broadcasts) become an explicit ordered
  event list; `appendAdminLog` / `incrementCoinStats` / `console.log`
  calls carry no information beyond the corresponding events and are not
  modelled separately.
* JavaScript `Number(token)` on a non-empty all-digit token is its exact
  decimal value, except that values at or above the IEEE-754 double
  overflow threshold become `Infinity` (so that `Number.isInteger` turns
  false).  `tokenValue` is the exact decimal value and `jsIsIntegerNumber`
  models the `Number.isInteger(Number(token))` test.
-/

namespace Printbit

/-- `ACCEPTED_COINS` of serial.ts line 7 (`new Set([1, 5, 10, 20])`). -/
def ACCEPTED_COINS : List Nat := [1, 5, 10, 20]

/-- `FRAGMENT_WINDOW_MS` of serial.ts line 8. -/
def FRAGMENT_WINDOW_MS : Nat := 140

/-- `RETRY_INTERVAL_MS` of serial.ts line 9. -/
def RETRY_INTERVAL_MS : Nat := 5000

/-- `MAX_RETRIES` of serial.ts line 10. -/
def MAX_RETRIES : Nat := 12

/-- Exact decimal value of an all-digit token, i.e. `Number(token)`
before IEEE-754 rounding.  (Rounding cannot move a value across the
`ACCEPTED_COINS` membership test: values with at most 15 digits are exact,
and longer ones round to something still far above 20.) -/
def tokenValue (t : String) : Nat :=
  t.data.foldl (fun a c => a * 10 + (c.toNat - 48)) 0

/-- Smallest natural number whose `Number(·)` is `Infinity`: digit strings
with value `≥ 2^1024 - 2^970` round up to `Infinity` under
round-to-nearest-even; everything below rounds to a finite double. -/
def JS_OVERFLOW : Nat := 2 ^ 1024 - 2 ^ 970

/-- Models `Number.isInteger(Number(token))` for a non-empty all-digit
token: a finite double (and then always an integer), unless the value
overflows to `Infinity`. -/
def jsIsIntegerNumber (t : String) : Bool :=
  tokenValue t < JS_OVERFLOW

/-- The `reason` argument of `flushPending` (serial.ts line 108). -/
inductive Reason where
  | timeout
  | interrupted
deriving DecidableEq, Repr

/-- One `io.emit` call of the decoder, with the payload fields the
claims are about.  `balanceEv` is `io.emit("balance", b)`; `coinAccepted`
is `io.emit("coinAccepted", {value, balance})`; the remaining four are the
`io.emit("coinParserWarning", {code, message})` calls, keyed by their
`code` field and carrying the data interpolated into the message. -/
inductive Event where
  | balanceEv (b : Int)
  | coinAccepted (value : Nat) (b : Int)
  | invalidFragment (digit : String) (r : Reason)
  | invalidCombination (combined : Nat)
  | nonNumeric (token : String)
  | unsupportedCoin (value : Nat)
deriving DecidableEq, Repr

/-- An event is an acceptance (`coinAccepted`) event. -/
def Event.isAcceptance : Event → Bool
  | .coinAccepted _ _ => true
  | _ => false

/-- An event is a rejection (`coinParserWarning`) event. -/
def Event.isRejection : Event → Bool
  | .invalidFragment _ _ => true
  | .invalidCombination _ => true
  | .nonNumeric _ => true
  | .unsupportedCoin _ => true
  | _ => false

/-- The decoder's mutable state: `pending` is serial.ts's armed digit
(line 87, `"1" | "2" | null`), `armedAt` the arming time of the pending
`setTimeout` (line 88; the timer fires at `armedAt + FRAGMENT_WINDOW_MS`),
`balance` is `db.data.balance`. -/
structure DecoderState where
  pending : Option String
  armedAt : Option Nat
  balance : Int
deriving DecidableEq, Repr

/-- `clearPending` (serial.ts lines 90–94). -/
def clearPending (s : DecoderState) : DecoderState :=
  { s with pending := none, armedAt := none }

/-- `persistBalance` (serial.ts lines 96–106): add the coin to the
balance, then emit `balance` and `coinAccepted`. -/
def persistBalance (coinValue : Nat) (s : DecoderState) :
    DecoderState × List Event :=
  let b := s.balance + coinValue
  ({ s with balance := b }, [.balanceEv b, .coinAccepted coinValue b])

/-- `flushPending` (serial.ts lines 108–128): resolve the armed digit,
crediting `1` when it is `"1"`, otherwise emitting an
`INVALID_FRAGMENT` warning. -/
def flushPending (r : Reason) (s : DecoderState) :
    DecoderState × List Event :=
  match s.pending with
  | none => (s, [])
  | some p =>
    let s1 := clearPending s
    if p = "1" then persistBalance 1 s1
    else (s1, [.invalidFragment p r])

/-- `armPending` (serial.ts lines 130–137): clear any previous pending
state, record the digit and schedule the timeout flush. -/
def armPending (p : String) (now : Nat) (s : DecoderState) : DecoderState :=
  let s1 := clearPending s
  { s1 with pending := some p, armedAt := some now }

/-- The tail of `processToken` (serial.ts lines 164–196) reached with no
pending digit (either it was `null`, or the interruption flush just ran):
arm `"1"`/`"2"`, else classify the numeric value. -/
def processIdle (now : Nat) (token : String) (s : DecoderState) :
    DecoderState × List Event :=
  if token = "1" ∨ token = "2" then
    (armPending token now s, [])
  else
    let value := tokenValue token
    if ¬ jsIsIntegerNumber token then
      (s, [.nonNumeric token])
    else if ¬ ACCEPTED_COINS.contains value then
      (s, [.unsupportedCoin value])
    else
      persistBalance value s

/-- `processToken` (serial.ts lines 139–197).  With a pending digit, the
exact token `"0"` combines (`Number(prefix + token)`), guarded by
`ACCEPTED_COINS.has`; any other token first flushes the fragment with
reason `interrupted` and then falls through to the idle logic. -/
def processToken (now : Nat) (token : String) (s : DecoderState) :
    DecoderState × List Event :=
  match s.pending with
  | some p =>
    if token = "0" then
      let combined := tokenValue (p ++ token)
      let s1 := clearPending s
      if ACCEPTED_COINS.contains combined then
        persistBalance combined s1
      else
        (s1, [.invalidCombination combined])
    else
      let r1 := flushPending .interrupted s
      let r2 := processIdle now token r1.1
      (r2.1, r1.2 ++ r2.2)
  | none => processIdle now token s

/-- `rawLine.trim().replace(/[^0-9]/g, "")` (serial.ts line 201): `trim`
removes only non-digits, so keeping exactly the digit characters is the
same function. -/
def stripToDigits (line : String) : String :=
  ⟨line.data.filter Char.isDigit⟩

/-- The `parser.on("data")` handler (serial.ts lines 199–204): strip the
line to its digits and discard it silently when nothing remains. -/
def onData (now : Nat) (rawLine : String) (s : DecoderState) :
    DecoderState × List Event :=
  let token := stripToDigits rawLine
  if token = "" then (s, [])
  else processToken now token s

/-- Event-loop driver, timer half: a timer armed at `a` fires at
`a + FRAGMENT_WINDOW_MS`, hence before any line arriving at or after that
instant is handled.  Events are tagged with the time they occur. -/
def fireDueTimer (now : Nat) (s : DecoderState) :
    DecoderState × List (Nat × Event) :=
  match s.pending, s.armedAt with
  | some _, some a =>
    if a + FRAGMENT_WINDOW_MS ≤ now then
      let r := flushPending .timeout s
      (r.1, r.2.map (fun e => (a + FRAGMENT_WINDOW_MS, e)))
    else (s, [])
  | _, _ => (s, [])

/-- Event-loop driver for one transport line arriving at time `now`:
first fire a due timer, then run the data handler. -/
def deliverLine (s : DecoderState) (now : Nat) (rawLine : String) :
    DecoderState × List (Nat × Event) :=
  let r1 := fireDueTimer now s
  let r2 := onData now rawLine r1.1
  (r2.1, r1.2 ++ r2.2.map (fun e => (now, e)))

/-- Run a time-stamped sequence of transport lines. -/
def runLines (s : DecoderState) :
    List (Nat × String) → DecoderState × List (Nat × Event)
  | [] => (s, [])
  | (t, line) :: rest =>
    let r1 := deliverLine s t line
    let r2 := runLines r1.1 rest
    (r2.1, r1.2 ++ r2.2)

/-- After the last line, a still-armed timer fires at its deadline. -/
def finishTimer (s : DecoderState) : DecoderState × List (Nat × Event) :=
  match s.pending, s.armedAt with
  | some _, some a =>
    let r := flushPending .timeout s
    (r.1, r.2.map (fun e => (a + FRAGMENT_WINDOW_MS, e)))
  | _, _ => (s, [])

/-- Whole-stream semantics: deliver every line, then let the last timer
(if any) fire. -/
def runStream (s : DecoderState) (lines : List (Nat × String)) :
    DecoderState × List (Nat × Event) :=
  let r1 := runLines s lines
  let r2 := finishTimer r1.1
  (r2.1, r1.2 ++ r2.2)

/-- Values credited by the acceptance events of an event list, in order. -/
def creditsOfE (evs : List Event) : List Nat :=
  evs.filterMap (fun e =>
    match e with
    | .coinAccepted v _ => some v
    | _ => none)

/-- Number of rejection events of an event list. -/
def rejectionsE (evs : List Event) : Nat :=
  (evs.filter Event.isRejection).length

/-- Number of acceptance events of an event list. -/
def acceptancesE (evs : List Event) : Nat :=
  (evs.filter Event.isAcceptance).length

/-- Values credited by the acceptance events of a time-stamped trace. -/
def creditsOf (tr : List (Nat × Event)) : List Nat :=
  creditsOfE (tr.map Prod.snd)

/-- Number of rejection events of a time-stamped trace. -/
def rejectionCount (tr : List (Nat × Event)) : Nat :=
  rejectionsE (tr.map Prod.snd)

/-- Number of acceptance events of a time-stamped trace. -/
def acceptanceCount (tr : List (Nat × Event)) : Nat :=
  acceptancesE (tr.map Prod.snd)

/-- An event is the `INVALID_COMBINATION` parser warning. -/
def Event.isInvalidCombination : Event → Bool
  | .invalidCombination _ => true
  | _ => false

/-- The armed digit is `null`, `"1"` or `"2"`: the value space of
serial.ts line 87 (`let pendingPrefix: "1" | "2" | null`).  In the
embedding `pending` is an `Option String`, so reachability of the source's
type is an invariant. -/
def GoodPending (s : DecoderState) : Prop :=
  s.pending = none ∨ s.pending = some "1" ∨ s.pending = some "2"

/-!
## The balance-mutating operations of the rest of the system

`db.data.balance` is shared between the decoder and the HTTP handlers of
`src/routes/financial-routes.ts`.  The handlers' balance-relevant effects
are embedded below; pricing (`calculateJobAmount` of the external admin
service, whose source is not part of the decoder) enters as a
non-negative amount parameter of the operation.
-/

/-- `ACCEPTED_TEST_COINS` of financial-routes.ts line 53. -/
def ACCEPTED_TEST_COINS : List Nat := [1, 5, 10, 20]

/-- Whole-system state: the decoder state (which holds
`db.data.balance`) plus `db.data.earnings`. -/
structure SysState where
  dec : DecoderState
  earnings : Int
deriving DecidableEq, Repr

/-- One balance-touching operation of the system.
* `serialLine` / `serialTimeoutFlush`: decoder activity (serial.ts).
* `balanceReset`: `POST /api/balance/reset` (financial-routes.ts 36–51).
* `addTestCoin`: `POST /api/balance/add-test-coin` (lines 56–81).
* `printCharge minAmount printOk`: `POST /print` (lines 98–145);
  `minAmount` is `calculateJobAmount("print", "grayscale", 1)` and
  `printOk` tells whether `printFile` succeeded.
* `confirmPayment required jobOk`: `POST /api/confirm-payment`
  (lines 147–302); `required` is the server-side `requiredAmount` and
  `jobOk` tells whether the mode/session/document/print checks passed.
* `copyJobCharge required jobOk`: `POST /api/copy/jobs`
  (copy-routes.ts lines 16–122); `required` is
  `calculateJobAmount("copy", colorMode, copies)` and `jobOk` tells
  whether the preview-path validation checks passed. -/
inductive SysOp where
  | serialLine (now : Nat) (line : String)
  | serialTimeoutFlush
  | balanceReset
  | addTestCoin (v : Nat)
  | printCharge (minAmount : Nat) (printOk : Bool)
  | confirmPayment (required : Nat) (jobOk : Bool)
  | copyJobCharge (required : Nat) (jobOk : Bool)
deriving DecidableEq, Repr

/-- The balance/earnings effect of one system operation, read off the
route handlers.  `POST /print` requires `balance ≥ minAmount`, then (on a
successful print) moves the whole balance into earnings and zeroes it;
`POST /api/confirm-payment` requires `balance ≥ required`, then debits
`required` and adds it to earnings; `POST /api/copy/jobs` validates the
checked document, requires `balance ≥ required`, then debits `required`
and adds it to earnings (before the asynchronous print phase starts). -/
def sysStep (st : SysState) : SysOp → SysState
  | .serialLine now line => { st with dec := (deliverLine st.dec now line).1 }
  | .serialTimeoutFlush => { st with dec := (finishTimer st.dec).1 }
  | .balanceReset => { st with dec := { st.dec with balance := 0 } }
  | .addTestCoin v =>
    if ACCEPTED_TEST_COINS.contains v then
      { st with dec := { st.dec with balance := st.dec.balance + v } }
    else st
  | .printCharge minAmount printOk =>
    if st.dec.balance < (minAmount : Int) then st
    else if printOk then
      { st with earnings := st.earnings + st.dec.balance,
                dec := { st.dec with balance := 0 } }
    else st
  | .confirmPayment required jobOk =>
    if st.dec.balance < (required : Int) then st
    else if jobOk then
      { st with dec := { st.dec with balance := st.dec.balance - required },
                earnings := st.earnings + required }
    else st
  | .copyJobCharge required jobOk =>
    if ¬ jobOk then st
    else if st.dec.balance < (required : Int) then st
    else
      { st with dec := { st.dec with balance := st.dec.balance - required },
                earnings := st.earnings + required }

/-- The operation is decoder activity. -/
def SysOp.isDecoderOp : SysOp → Bool
  | .serialLine _ _ => true
  | .serialTimeoutFlush => true
  | _ => false

/-- The operations whose handlers can lower the balance: the
administrative reset, the `POST /print` charge, the
`POST /api/confirm-payment` debit, and the `POST /api/copy/jobs`
debit. -/
def SysOp.mayDebit : SysOp → Bool
  | .balanceReset => true
  | .printCharge _ _ => true
  | .confirmPayment _ _ => true
  | .copyJobCharge _ _ => true
  | _ => false

/-!
## The serial connection retry loop

`attemptSerialConnection` (serial.ts lines 29–238), embedded as a
function of the per-attempt outcome of `SerialPort.list()` + `open`
(external I/O, so an oracle indexed by the attempt number: each attempt
re-enumerates and re-opens).  The result records the final connection
status, the number of attempts performed, and the scheduled delay (ms) of
every retry, in order.
-/

/-- The observable outcome of one connection attempt's I/O. -/
inductive AttemptOutcome where
  | noPorts
  | openOk
  | openErr (msg : String)
deriving DecidableEq, Repr

/-- The module-level connection status (`serialConnected`,
`serialLastError` of serial.ts lines 12–14). -/
structure ConnStatus where
  connected : Bool
  lastError : Option String
deriving DecidableEq, Repr

/-- `pat` is a prefix of `s` (character lists). -/
def isPre : List Char → List Char → Bool
  | [], _ => true
  | _ :: _, [] => false
  | c :: p, d :: s => c == d && isPre p s

/-- `s` contains `pat` as a contiguous substring (character lists),
i.e. JavaScript's `String.prototype.includes`. -/
def hasSub (pat : List Char) : List Char → Bool
  | [] => isPre pat []
  | c :: t => isPre pat (c :: t) || hasSub pat t

/-- `msg.toLowerCase()`; the error messages at issue are ASCII, where
JavaScript's Unicode lowercasing and `Char.toLower` agree. -/
def strToLower (s : String) : String :=
  ⟨s.data.map Char.toLower⟩

/-- serial.ts line 215:
`serialLastError.toLowerCase().includes("access denied")`. -/
def isAccessDenied (msg : String) : Bool :=
  hasSub ("access denied".data) (strToLower msg).data

/-- `attemptSerialConnection` (serial.ts lines 29–238): no ports found or
a successful open end the loop; an open error retries—after a
`RETRY_INTERVAL_MS` delay, with re-enumeration—only while the message
contains "access denied" (case-insensitively) and `attempt < MAX_RETRIES`;
otherwise the error is recorded and no further attempt occurs.  Returns
(final status, number of attempts performed, delays of the scheduled
retries). -/
def attemptSerial (outcomes : Nat → AttemptOutcome) (attempt : Nat) :
    ConnStatus × Nat × List Nat :=
  match outcomes attempt with
  | .noPorts => (⟨false, some "No serial ports found."⟩, 1, [])
  | .openOk => (⟨true, none⟩, 1, [])
  | .openErr msg =>
    if h : isAccessDenied msg = true ∧ attempt < MAX_RETRIES then
      let r := attemptSerial outcomes (attempt + 1)
      (r.1, r.2.1 + 1, RETRY_INTERVAL_MS :: r.2.2)
    else
      (⟨false, some msg⟩, 1, [])
termination_by MAX_RETRIES - attempt
decreasing_by
  have := h.2
  simp only [MAX_RETRIES] at *
  omega

end Printbit

namespace Printbit

/-! ## Helper lemmas -/

theorem clearPending_balance (s : DecoderState) :
    (clearPending s).balance = s.balance := rfl

theorem persistBalance_balance (v : Nat) (s : DecoderState) :
    (persistBalance v s).1.balance = s.balance + v := rfl

theorem flushPending_balance_le (r : Reason) (s : DecoderState) :
    s.balance ≤ (flushPending r s).1.balance := by
  unfold flushPending
  rcases hs : s.pending with _ | p
  · simp
  · simp only
    split
    · simp [persistBalance, clearPending]
    · simp [clearPending]

theorem processIdle_balance_le (now : Nat) (t : String) (s : DecoderState) :
    s.balance ≤ (processIdle now t s).1.balance := by
  simp only [processIdle]
  split
  · simp [armPending, clearPending]
  · split
    · simp
    · split
      · simp
      · simp [persistBalance]

theorem processToken_balance_le (now : Nat) (t : String) (s : DecoderState) :
    s.balance ≤ (processToken now t s).1.balance := by
  simp only [processToken]
  rcases hs : s.pending with _ | p
  · exact processIdle_balance_le now t s
  · simp only
    split
    · split
      · simp [persistBalance, clearPending]
      · simp [clearPending]
    · exact le_trans (flushPending_balance_le .interrupted s)
        (processIdle_balance_le now t _)

theorem onData_balance_le (now : Nat) (line : String) (s : DecoderState) :
    s.balance ≤ (onData now line s).1.balance := by
  simp only [onData]
  split
  · simp
  · exact processToken_balance_le now _ s

theorem fireDueTimer_balance_le (now : Nat) (s : DecoderState) :
    s.balance ≤ (fireDueTimer now s).1.balance := by
  simp only [fireDueTimer]
  split
  · split
    · exact flushPending_balance_le .timeout s
    · simp
  · simp

theorem deliverLine_balance_le (s : DecoderState) (now : Nat) (line : String) :
    s.balance ≤ (deliverLine s now line).1.balance := by
  simp only [deliverLine]
  exact le_trans (fireDueTimer_balance_le now s) (onData_balance_le now line _)

theorem finishTimer_balance_le (s : DecoderState) :
    s.balance ≤ (finishTimer s).1.balance := by
  simp only [finishTimer]
  split
  · exact flushPending_balance_le .timeout s
  · simp

theorem runLines_balance_le (lines : List (Nat × String)) (s : DecoderState) :
    s.balance ≤ (runLines s lines).1.balance := by
  induction lines generalizing s with
  | nil => simp [runLines]
  | cons tl rest ih =>
    exact le_trans (deliverLine_balance_le s tl.1 tl.2) (ih _)

theorem runStream_balance_le (s : DecoderState) (lines : List (Nat × String)) :
    s.balance ≤ (runStream s lines).1.balance :=
  le_trans (runLines_balance_le lines s) (finishTimer_balance_le _)

end Printbit
namespace Printbit

theorem mem_of_contains {v : Nat} (h : ACCEPTED_COINS.contains v = true) :
    v ∈ ACCEPTED_COINS := by
  simpa using h

theorem creditsOfE_append (l1 l2 : List Event) :
    creditsOfE (l1 ++ l2) = creditsOfE l1 ++ creditsOfE l2 := by
  simp [creditsOfE]

theorem creditsOf_append (t1 t2 : List (Nat × Event)) :
    creditsOf (t1 ++ t2) = creditsOf t1 ++ creditsOf t2 := by
  simp [creditsOf, creditsOfE]

theorem creditsOf_stamp (t : Nat) (evs : List Event) :
    creditsOf (evs.map (fun e => (t, e))) = creditsOfE evs := by
  simp [creditsOf]

theorem flushPending_credits (r : Reason) (s : DecoderState) :
    ∀ v ∈ creditsOfE (flushPending r s).2, v ∈ ACCEPTED_COINS := by
  simp only [flushPending]
  rcases s.pending with _ | p
  · simp [creditsOfE]
  · simp only
    split
    · simp [creditsOfE, persistBalance, ACCEPTED_COINS]
    · simp [creditsOfE]

theorem processIdle_credits (now : Nat) (t : String) (s : DecoderState) :
    ∀ v ∈ creditsOfE (processIdle now t s).2, v ∈ ACCEPTED_COINS := by
  simp only [processIdle]
  split
  · simp [creditsOfE]
  · split
    · simp [creditsOfE]
    · split
      · simp [creditsOfE]
      · next h2 =>
        intro v hv
        simp [creditsOfE, persistBalance] at hv
        subst hv
        exact mem_of_contains (by simpa using h2)

theorem processToken_credits (now : Nat) (t : String) (s : DecoderState) :
    ∀ v ∈ creditsOfE (processToken now t s).2, v ∈ ACCEPTED_COINS := by
  simp only [processToken]
  rcases s.pending with _ | p
  · exact processIdle_credits now t s
  · simp only
    split
    · split
      · next hc =>
        intro v hv
        simp [creditsOfE, persistBalance] at hv
        subst hv
        exact mem_of_contains hc
      · simp [creditsOfE]
    · intro v hv
      rw [creditsOfE_append] at hv
      rcases List.mem_append.mp hv with hm | hm
      · exact flushPending_credits _ _ v hm
      · exact processIdle_credits _ _ _ v hm

theorem onData_credits (now : Nat) (line : String) (s : DecoderState) :
    ∀ v ∈ creditsOfE (onData now line s).2, v ∈ ACCEPTED_COINS := by
  simp only [onData]
  split
  · simp [creditsOfE]
  · exact processToken_credits now _ s

theorem fireDueTimer_credits (now : Nat) (s : DecoderState) :
    ∀ v ∈ creditsOf (fireDueTimer now s).2, v ∈ ACCEPTED_COINS := by
  simp only [fireDueTimer]
  split
  · split
    · rw [creditsOf_stamp]
      exact flushPending_credits _ _
    · simp [creditsOf, creditsOfE]
  · simp [creditsOf, creditsOfE]

theorem deliverLine_credits (s : DecoderState) (now : Nat) (line : String) :
    ∀ v ∈ creditsOf (deliverLine s now line).2, v ∈ ACCEPTED_COINS := by
  simp only [deliverLine]
  intro v hv
  rw [creditsOf_append] at hv
  rcases List.mem_append.mp hv with hm | hm
  · exact fireDueTimer_credits now s v hm
  · rw [creditsOf_stamp] at hm
    exact onData_credits now line _ v hm

theorem finishTimer_credits (s : DecoderState) :
    ∀ v ∈ creditsOf (finishTimer s).2, v ∈ ACCEPTED_COINS := by
  simp only [finishTimer]
  split
  · rw [creditsOf_stamp]
    exact flushPending_credits _ _
  · simp [creditsOf, creditsOfE]

theorem runLines_credits (lines : List (Nat × String)) (s : DecoderState) :
    ∀ v ∈ creditsOf (runLines s lines).2, v ∈ ACCEPTED_COINS := by
  induction lines generalizing s with
  | nil => simp [runLines, creditsOf, creditsOfE]
  | cons tl rest ih =>
    intro v hv
    simp only [runLines] at hv
    rw [creditsOf_append] at hv
    rcases List.mem_append.mp hv with hm | hm
    · exact deliverLine_credits s tl.1 tl.2 v hm
    · exact ih _ v hm

theorem runStream_credits (s : DecoderState) (lines : List (Nat × String)) :
    ∀ v ∈ creditsOf (runStream s lines).2, v ∈ ACCEPTED_COINS := by
  intro v hv
  simp only [runStream] at hv
  rw [creditsOf_append] at hv
  rcases List.mem_append.mp hv with hm | hm
  · exact runLines_credits lines s v hm
  · exact finishTimer_credits _ v hm

end Printbit
namespace Printbit

theorem flushPending_good (r : Reason) (s : DecoderState) :
    GoodPending (flushPending r s).1 := by
  rcases hs : s.pending with _ | p
  · simp only [flushPending, hs]
    exact Or.inl hs
  · simp only [flushPending, hs]
    split
    · exact Or.inl rfl
    · exact Or.inl rfl

theorem processIdle_good (now : Nat) (t : String) (s : DecoderState)
    (h : GoodPending s) : GoodPending (processIdle now t s).1 := by
  simp only [processIdle]
  split
  · next ht =>
    rcases ht with ht | ht <;> subst ht
    · exact Or.inr (Or.inl rfl)
    · exact Or.inr (Or.inr rfl)
  · split
    · exact h
    · split
      · exact h
      · simpa [GoodPending, persistBalance] using h

theorem processToken_good (now : Nat) (t : String) (s : DecoderState)
    (h : GoodPending s) : GoodPending (processToken now t s).1 := by
  simp only [processToken]
  rcases hs : s.pending with _ | p
  · exact processIdle_good now t s h
  · simp only
    split
    · split
      · exact Or.inl rfl
      · exact Or.inl rfl
    · exact processIdle_good now t _ (flushPending_good .interrupted s)

theorem onData_good (now : Nat) (line : String) (s : DecoderState)
    (h : GoodPending s) : GoodPending (onData now line s).1 := by
  simp only [onData]
  split
  · exact h
  · exact processToken_good now _ s h

theorem fireDueTimer_good (now : Nat) (s : DecoderState)
    (h : GoodPending s) : GoodPending (fireDueTimer now s).1 := by
  simp only [fireDueTimer]
  split
  · split
    · exact flushPending_good .timeout s
    · exact h
  · exact h

theorem deliverLine_good (s : DecoderState) (now : Nat) (line : String)
    (h : GoodPending s) : GoodPending (deliverLine s now line).1 := by
  simp only [deliverLine]
  exact onData_good now line _ (fireDueTimer_good now s h)

theorem finishTimer_good (s : DecoderState) (h : GoodPending s) :
    GoodPending (finishTimer s).1 := by
  simp only [finishTimer]
  split
  · exact flushPending_good .timeout s
  · exact h

theorem runLines_good (lines : List (Nat × String)) (s : DecoderState)
    (h : GoodPending s) : GoodPending (runLines s lines).1 := by
  induction lines generalizing s with
  | nil => simpa [runLines] using h
  | cons tl rest ih =>
    simp only [runLines]
    exact ih _ (deliverLine_good s tl.1 tl.2 h)

/-! No-`INVALID_COMBINATION` lemmas (for C9). -/

theorem persistBalance_noIC (v : Nat) (s : DecoderState) :
    ∀ e ∈ (persistBalance v s).2, e.isInvalidCombination = false := by
  simp [persistBalance, Event.isInvalidCombination]

theorem flushPending_noIC (r : Reason) (s : DecoderState) :
    ∀ e ∈ (flushPending r s).2, e.isInvalidCombination = false := by
  rcases hs : s.pending with _ | p
  · simp [flushPending, hs]
  · simp only [flushPending, hs]
    split
    · exact persistBalance_noIC 1 _
    · simp [Event.isInvalidCombination]

theorem processIdle_noIC (now : Nat) (t : String) (s : DecoderState) :
    ∀ e ∈ (processIdle now t s).2, e.isInvalidCombination = false := by
  simp only [processIdle]
  split
  · simp
  · split
    · simp [Event.isInvalidCombination]
    · split
      · simp [Event.isInvalidCombination]
      · exact persistBalance_noIC _ _

theorem processToken_noIC (now : Nat) (t : String) (s : DecoderState)
    (h : GoodPending s) :
    ∀ e ∈ (processToken now t s).2, e.isInvalidCombination = false := by
  simp only [processToken]
  rcases hs : s.pending with _ | p
  · exact processIdle_noIC now t s
  · have hp : p = "1" ∨ p = "2" := by
      rcases h with h | h | h <;> rw [hs] at h
      · exact absurd h (by simp)
      · exact Or.inl (by injection h)
      · exact Or.inr (by injection h)
    simp only
    split
    · rename_i h0
      subst h0
      split
      · exact persistBalance_noIC _ _
      · rename_i hc
        exfalso
        rcases hp with hp | hp <;> subst hp <;> exact hc (by decide)
    · intro e he
      rcases List.mem_append.mp he with hm | hm
      · exact flushPending_noIC _ _ e hm
      · exact processIdle_noIC _ _ _ e hm

theorem onData_noIC (now : Nat) (line : String) (s : DecoderState)
    (h : GoodPending s) :
    ∀ e ∈ (onData now line s).2, e.isInvalidCombination = false := by
  simp only [onData]
  split
  · simp
  · exact processToken_noIC now _ s h

theorem fireDueTimer_noIC (now : Nat) (s : DecoderState) :
    ∀ te ∈ (fireDueTimer now s).2, te.2.isInvalidCombination = false := by
  simp only [fireDueTimer]
  split
  · split
    · intro te hte
      rcases List.mem_map.mp hte with ⟨e, he, rfl⟩
      exact flushPending_noIC .timeout _ e he
    · simp
  · simp

theorem deliverLine_noIC (s : DecoderState) (now : Nat) (line : String)
    (h : GoodPending s) :
    ∀ te ∈ (deliverLine s now line).2, te.2.isInvalidCombination = false := by
  simp only [deliverLine]
  intro te hte
  rcases List.mem_append.mp hte with hm | hm
  · exact fireDueTimer_noIC now s te hm
  · rcases List.mem_map.mp hm with ⟨e, he, rfl⟩
    exact onData_noIC now line _ (fireDueTimer_good now s h) e he

theorem finishTimer_noIC (s : DecoderState) :
    ∀ te ∈ (finishTimer s).2, te.2.isInvalidCombination = false := by
  simp only [finishTimer]
  split
  · intro te hte
    rcases List.mem_map.mp hte with ⟨e, he, rfl⟩
    exact flushPending_noIC .timeout _ e he
  · simp

theorem runLines_noIC (lines : List (Nat × String)) (s : DecoderState)
    (h : GoodPending s) :
    ∀ te ∈ (runLines s lines).2, te.2.isInvalidCombination = false := by
  induction lines generalizing s with
  | nil => simp [runLines]
  | cons tl rest ih =>
    intro te hte
    simp only [runLines] at hte
    rcases List.mem_append.mp hte with hm | hm
    · exact deliverLine_noIC s tl.1 tl.2 h te hm
    · exact ih _ (deliverLine_good s tl.1 tl.2 h) te hm

end Printbit
namespace Printbit

/-- C1: Whenever the decoder is armed with a prefix digit and the
continuation token "0" arrives before the timeout window elapses, the
combined two-digit value is credited exactly once: the trace of the
delivery is exactly one balance broadcast and one acceptance event for
the combined value (10 for prefix "1", 20 for prefix "2"), so the balance
grows by exactly the combined value and no separate single-digit credit
occurs.  In particular the stream ["1", "0"] yields exactly one credit
of 10, one acceptance event and no rejection. -/
theorem C1_combined_two_digit_credit (b : Int) (a t t0 t1 : Nat) (p : String)
    (ht : t < a + FRAGMENT_WINDOW_MS) (h01 : t1 < t0 + FRAGMENT_WINDOW_MS) :
    (p = "1" →
      deliverLine ⟨some p, some a, b⟩ t "0" =
        (⟨none, none, b + 10⟩,
         [(t, .balanceEv (b + 10)), (t, .coinAccepted 10 (b + 10))])) ∧
    (p = "2" →
      deliverLine ⟨some p, some a, b⟩ t "0" =
        (⟨none, none, b + 20⟩,
         [(t, .balanceEv (b + 20)), (t, .coinAccepted 20 (b + 20))])) ∧
    runStream ⟨none, none, b⟩ [(t0, "1"), (t1, "0")] =
      (⟨none, none, b + 10⟩,
       [(t1, .balanceEv (b + 10)), (t1, .coinAccepted 10 (b + 10))]) ∧
    creditsOf (runStream ⟨none, none, b⟩ [(t0, "1"), (t1, "0")]).2 = [10] ∧
    acceptanceCount (runStream ⟨none, none, b⟩ [(t0, "1"), (t1, "0")]).2 = 1 ∧
    rejectionCount (runStream ⟨none, none, b⟩ [(t0, "1"), (t1, "0")]).2 = 0 := by
  have ha : ¬ (a + FRAGMENT_WINDOW_MS ≤ t) := by omega
  have h01' : ¬ (t0 + FRAGMENT_WINDOW_MS ≤ t1) := by omega
  have hrun : runStream ⟨none, none, b⟩ [(t0, "1"), (t1, "0")] =
      (⟨none, none, b + 10⟩,
       [(t1, .balanceEv (b + 10)), (t1, .coinAccepted 10 (b + 10))]) := by
    simp [runStream, runLines, deliverLine, fireDueTimer, onData, stripToDigits,
      processToken, processIdle, armPending, clearPending, persistBalance,
      flushPending, finishTimer, h01', ACCEPTED_COINS, tokenValue]
  refine ⟨?_, ?_, hrun, ?_, ?_, ?_⟩
  · rintro rfl
    simp [deliverLine, fireDueTimer, onData, stripToDigits, processToken,
      clearPending, persistBalance, ha, ACCEPTED_COINS, tokenValue]
  · rintro rfl
    simp [deliverLine, fireDueTimer, onData, stripToDigits, processToken,
      clearPending, persistBalance, ha, ACCEPTED_COINS, tokenValue]
  · rw [hrun]
    rfl
  · rw [hrun]
    rfl
  · rw [hrun]
    rfl

theorem C1_witness :
    (1 < 0 + FRAGMENT_WINDOW_MS ∧ 1 < 0 + FRAGMENT_WINDOW_MS) ∧
    creditsOf (runStream ⟨none, none, 0⟩ [(0, "1"), (1, "0")]).2 = [10] :=
  ⟨⟨by decide, by decide⟩,
   (C1_combined_two_digit_credit 0 0 1 0 1 "1" (by decide) (by decide)).2.2.2.1⟩

/-- C2: every value the decoder ever credits to the balance, over any
input stream, lies in the accepted denomination set {1, 5, 10, 20}. -/
theorem C2_credits_in_denomination_set (s0 : DecoderState)
    (lines : List (Nat × String)) :
    ∀ v ∈ creditsOf (runStream s0 lines).2, v ∈ ACCEPTED_COINS :=
  runStream_credits s0 lines

theorem C2_witness : 5 ∈ ACCEPTED_COINS :=
  C2_credits_in_denomination_set ⟨none, none, 0⟩ [(0, "5")] 5 (by decide)

/-- C3: with a prefix armed at time `a` and no further token, the timer
never fires before `a + FRAGMENT_WINDOW_MS` (so nothing is credited
early), and the flush at the deadline credits the prefix exactly once if
it is the valid standalone denomination "1" (events time-stamped at
exactly the deadline), otherwise (prefix "2") emits exactly one rejection
and leaves the balance unchanged; both outcomes clear the pending state
(return to IDLE). -/
theorem C3_timeout_flush (b : Int) (a : Nat) (p : String)
    (hp : p = "1" ∨ p = "2") :
    (∀ now, now < a + FRAGMENT_WINDOW_MS →
      fireDueTimer now ⟨some p, some a, b⟩ = (⟨some p, some a, b⟩, [])) ∧
    (p = "1" →
      finishTimer ⟨some p, some a, b⟩ =
        (⟨none, none, b + 1⟩,
         [(a + FRAGMENT_WINDOW_MS, .balanceEv (b + 1)),
          (a + FRAGMENT_WINDOW_MS, .coinAccepted 1 (b + 1))])) ∧
    (p = "2" →
      finishTimer ⟨some p, some a, b⟩ =
        (⟨none, none, b⟩,
         [(a + FRAGMENT_WINDOW_MS, .invalidFragment "2" .timeout)])) ∧
    (finishTimer ⟨some p, some a, b⟩).1.pending = none ∧
    (finishTimer ⟨some p, some a, b⟩).1.armedAt = none := by
  have hfire : ∀ now, now < a + FRAGMENT_WINDOW_MS →
      fireDueTimer now ⟨some p, some a, b⟩ = (⟨some p, some a, b⟩, []) := by
    intro now hn
    have : ¬ (a + FRAGMENT_WINDOW_MS ≤ now) := by omega
    simp [fireDueTimer, this]
  rcases hp with hp | hp <;> subst hp
  · refine ⟨hfire, ?_, ?_, ?_, ?_⟩
    · intro _
      simp [finishTimer, flushPending, clearPending, persistBalance]
    · intro h
      exact absurd h (by decide)
    · simp [finishTimer, flushPending, clearPending, persistBalance]
    · simp [finishTimer, flushPending, clearPending, persistBalance]
  · refine ⟨hfire, ?_, ?_, ?_, ?_⟩
    · intro h
      exact absurd h (by decide)
    · intro _
      simp [finishTimer, flushPending, clearPending]
    · simp [finishTimer, flushPending, clearPending]
    · simp [finishTimer, flushPending, clearPending]

theorem C3_witness :
    (finishTimer ⟨some "1", some 0, (0 : Int)⟩).1.pending = none :=
  (C3_timeout_flush 0 0 "1" (Or.inl rfl)).2.2.2.1

/-- C9: starting from any state whose armed digit is one of the values
the source's type allows (`null`, `"1"` or `"2"`), no input line stream
ever produces an `INVALID_COMBINATION` parser warning: the only
continuation token is "0", and both combined values 10 and 20 are
accepted denominations. -/
theorem C9_invalid_combination_unreachable (s0 : DecoderState)
    (h : GoodPending s0) (lines : List (Nat × String)) :
    ∀ te ∈ (runStream s0 lines).2, te.2.isInvalidCombination = false := by
  intro te hte
  simp only [runStream] at hte
  rcases List.mem_append.mp hte with hm | hm
  · exact runLines_noIC lines s0 h te hm
  · exact finishTimer_noIC _ te hm

theorem C9_witness :
    Event.isInvalidCombination (Event.balanceEv 20) = false :=
  C9_invalid_combination_unreachable ⟨none, none, 0⟩ (Or.inl rfl)
    [(0, "2"), (1, "0")] (1, Event.balanceEv 20) (by decide)

/-- C10: a transport line whose token is empty after stripping non-digit
characters is discarded by the data handler before the state machine
runs: no event is produced and the state — including the armed fragment
and its timer — is returned unchanged. -/
theorem C10_empty_token_silent (s : DecoderState) (now : Nat) (line : String)
    (h : stripToDigits line = "") :
    onData now line s = (s, []) ∧
    (onData now line s).1.pending = s.pending ∧
    (onData now line s).1.armedAt = s.armedAt ∧
    (onData now line s).1.balance = s.balance ∧
    (onData now line s).2 = [] := by
  have he : onData now line s = (s, []) := by simp [onData, h]
  exact ⟨he, by rw [he], by rw [he], by rw [he], by rw [he]⟩

theorem C10_witness :
    onData 5 "coin!" ⟨some "1", some 3, (7 : Int)⟩ =
      (⟨some "1", some 3, 7⟩, []) :=
  (C10_empty_token_silent ⟨some "1", some 3, 7⟩ 5 "coin!" (by decide)).1

/-- C5 refuted: on the stream ["2", "9"] (second token inside the
window) the code emits two rejection events — an interrupted-fragment
warning for "2", then an unsupported-coin warning for 9 — and never an
`INVALID_COMBINATION` warning, because "9" is not the continuation
token; so "exactly one rejection event with an invalid-combination
reason" is false. -/
theorem C5_counterexample :
    runStream ⟨none, none, 0⟩ [(0, "2"), (1, "9")] =
      (⟨none, none, 0⟩,
       [(1, .invalidFragment "2" .interrupted), (1, .unsupportedCoin 9)]) ∧
    rejectionCount (runStream ⟨none, none, 0⟩ [(0, "2"), (1, "9")]).2 = 2 ∧
    creditsOf (runStream ⟨none, none, 0⟩ [(0, "2"), (1, "9")]).2 = [] := by
  decide

/-- C5 as amended: on ["2", "9"] with the second token arriving before
the timeout window elapses, there is no credit and there are exactly two
rejection events, in order: an invalid-fragment rejection (reason:
interrupted) for the armed prefix "2", then an unsupported-coin rejection
for the value 9; no invalid-combination rejection occurs. -/
theorem C5_amended_two_rejections (b : Int) (t0 t1 : Nat)
    (h : t1 < t0 + FRAGMENT_WINDOW_MS) :
    runStream ⟨none, none, b⟩ [(t0, "2"), (t1, "9")] =
      (⟨none, none, b⟩,
       [(t1, .invalidFragment "2" .interrupted), (t1, .unsupportedCoin 9)]) ∧
    creditsOf (runStream ⟨none, none, b⟩ [(t0, "2"), (t1, "9")]).2 = [] ∧
    rejectionCount (runStream ⟨none, none, b⟩ [(t0, "2"), (t1, "9")]).2 = 2 ∧
    acceptanceCount (runStream ⟨none, none, b⟩ [(t0, "2"), (t1, "9")]).2 = 0 := by
  have h' : ¬ (t0 + FRAGMENT_WINDOW_MS ≤ t1) := by omega
  have h9 : jsIsIntegerNumber "9" = true := by decide
  have hc9 : ACCEPTED_COINS.contains (tokenValue "9") = false := by decide
  have hrun : runStream ⟨none, none, b⟩ [(t0, "2"), (t1, "9")] =
      (⟨none, none, b⟩,
       [(t1, .invalidFragment "2" .interrupted), (t1, .unsupportedCoin 9)]) := by
    simp [runStream, runLines, deliverLine, fireDueTimer, onData, stripToDigits,
      processToken, processIdle, armPending, clearPending, flushPending,
      finishTimer, h', h9, hc9, tokenValue, ACCEPTED_COINS]
  refine ⟨hrun, ?_, ?_, ?_⟩ <;> rw [hrun] <;> rfl

theorem C5_amended_witness :
    creditsOf (runStream ⟨none, none, 0⟩ [(0, "2"), (1, "9")]).2 = [] :=
  (C5_amended_two_rejections 0 0 1 (by decide)).2.1

end Printbit
namespace Printbit

theorem twenty_lt_JS_OVERFLOW : (20 : Nat) < JS_OVERFLOW := by
  have h1 : (2 : Nat) ^ 5 ≤ 2 ^ 970 := Nat.pow_le_pow_right (by norm_num) (by norm_num)
  have h2 : (2 : Nat) ^ 971 ≤ 2 ^ 1024 := Nat.pow_le_pow_right (by norm_num) (by norm_num)
  have h3 : (2 : Nat) ^ 970 + 2 ^ 970 = 2 ^ 971 := by
    rw [← two_mul, ← pow_succ']
  have h4 : (20 : Nat) < 2 ^ 5 := by norm_num
  simp only [JS_OVERFLOW]
  omega

/-- C6 refuted: (i) a transport line with no digits ("abc") produces no
event at all — not one rejection event; (ii) while a fragment is armed,
the out-of-set non-prefix token "9" produces two rejection events, and
(iii) with prefix "1" armed its arrival mutates the balance (the
interruption credit of the fragment). -/
theorem C6_counterexample :
    (deliverLine ⟨none, none, 0⟩ 0 "abc").2 = [] ∧
    rejectionCount (deliverLine ⟨some "2", some 0, 0⟩ 5 "9").2 = 2 ∧
    (deliverLine ⟨some "1", some 0, 0⟩ 5 "9").1.balance = 1 := by
  decide

/-- C6 as amended: a transport line containing no digits is discarded
silently — no event, no state change; and a token that is not a prefix
digit and resolves to a value outside the denomination set, processed
with no fragment armed, leaves the state (hence the balance) unchanged
and produces exactly one rejection event and no credit. -/
theorem C6_amended_unsupported_rejection (now : Nat) (s : DecoderState)
    (line u : String) :
    (stripToDigits line = "" → onData now line s = (s, [])) ∧
    (s.pending = none → stripToDigits u = u → u ≠ "" →
      u ≠ "1" → u ≠ "2" → tokenValue u ∉ ACCEPTED_COINS →
      (processToken now u s).1 = s ∧
      rejectionsE (processToken now u s).2 = 1 ∧
      creditsOfE (processToken now u s).2 = []) := by
  constructor
  · intro h
    simp [onData, h]
  · intro hpend _ _ h1 h2 hmem
    have hc : ACCEPTED_COINS.contains (tokenValue u) = false := by
      simpa using hmem
    by_cases hj : jsIsIntegerNumber u = true
    · simp [processToken, hpend, processIdle, h1, h2, hj, hmem, rejectionsE,
        creditsOfE, Event.isRejection]
    · simp [processToken, hpend, processIdle, h1, h2, hj, rejectionsE,
        creditsOfE, Event.isRejection]

theorem C6_amended_witness :
    onData 0 "abc" ⟨none, none, (0 : Int)⟩ = (⟨none, none, 0⟩, []) ∧
    (processToken 0 "9" ⟨none, none, (0 : Int)⟩).1 = ⟨none, none, 0⟩ :=
  ⟨(C6_amended_unsupported_rejection 0 ⟨none, none, 0⟩ "abc" "9").1 (by decide),
   ((C6_amended_unsupported_rejection 0 ⟨none, none, 0⟩ "abc" "9").2 rfl
      (by decide) (by decide) (by decide) (by decide) (by decide)).1⟩

/-- C4: EVERY non-continuation token `u` (any digit token other than
"0") arriving while a fragment is armed, before its deadline, is handled
by first resolving the pending fragment with reason `interrupted` —
credited when the armed digit is the valid standalone denomination "1",
rejected when it is "2" — then clearing the ARMED state, and then
re-processing `u` from IDLE, with the fragment resolution's events
strictly before the interrupting token's; consequently when the
interrupter is itself a valid non-prefix denomination the trace holds
exactly two acceptance events in arrival order (fragment's credit first)
when the fragment was "1", and one rejection followed by one acceptance
when it was "2". -/
theorem C4_interruption_order (b : Int) (a t : Nat) (p u : String)
    (hp : p = "1" ∨ p = "2") (ht : t < a + FRAGMENT_WINDOW_MS)
    (hdig : stripToDigits u = u) (hne : u ≠ "") (hu0 : u ≠ "0") :
    (flushPending .interrupted ⟨some p, some a, b⟩).1.pending = none ∧
    (flushPending .interrupted ⟨some p, some a, b⟩).1.armedAt = none ∧
    deliverLine ⟨some p, some a, b⟩ t u =
      ((processIdle t u (flushPending .interrupted ⟨some p, some a, b⟩).1).1,
       ((flushPending .interrupted ⟨some p, some a, b⟩).2 ++
        (processIdle t u
          (flushPending .interrupted ⟨some p, some a, b⟩).1).2).map
         (fun e => (t, e))) ∧
    (p = "1" →
      flushPending .interrupted ⟨some p, some a, b⟩ =
        (⟨none, none, b + 1⟩,
         [.balanceEv (b + 1), .coinAccepted 1 (b + 1)])) ∧
    (p = "2" →
      flushPending .interrupted ⟨some p, some a, b⟩ =
        (⟨none, none, b⟩, [.invalidFragment "2" .interrupted])) ∧
    (tokenValue u ∈ ACCEPTED_COINS → u ≠ "1" → u ≠ "2" →
      (p = "1" →
        deliverLine ⟨some p, some a, b⟩ t u =
          (⟨none, none, b + 1 + (tokenValue u : Int)⟩,
           [(t, .balanceEv (b + 1)), (t, .coinAccepted 1 (b + 1)),
            (t, .balanceEv (b + 1 + (tokenValue u : Int))),
            (t, .coinAccepted (tokenValue u)
              (b + 1 + (tokenValue u : Int)))]) ∧
        creditsOf (deliverLine ⟨some p, some a, b⟩ t u).2 =
          [1, tokenValue u] ∧
        acceptanceCount (deliverLine ⟨some p, some a, b⟩ t u).2 = 2 ∧
        rejectionCount (deliverLine ⟨some p, some a, b⟩ t u).2 = 0) ∧
      (p = "2" →
        deliverLine ⟨some p, some a, b⟩ t u =
          (⟨none, none, b + (tokenValue u : Int)⟩,
           [(t, .invalidFragment "2" .interrupted),
            (t, .balanceEv (b + (tokenValue u : Int))),
            (t, .coinAccepted (tokenValue u) (b + (tokenValue u : Int)))]) ∧
        creditsOf (deliverLine ⟨some p, some a, b⟩ t u).2 = [tokenValue u] ∧
        acceptanceCount (deliverLine ⟨some p, some a, b⟩ t u).2 = 1 ∧
        rejectionCount (deliverLine ⟨some p, some a, b⟩ t u).2 = 1)) := by
  have ha : ¬ (a + FRAGMENT_WINDOW_MS ≤ t) := by omega
  have hfl1 : p = "1" →
      flushPending .interrupted ⟨some p, some a, b⟩ =
        (⟨none, none, b + 1⟩,
         [.balanceEv (b + 1), .coinAccepted 1 (b + 1)]) := by
    rintro rfl
    simp [flushPending, clearPending, persistBalance]
  have hfl2 : p = "2" →
      flushPending .interrupted ⟨some p, some a, b⟩ =
        (⟨none, none, b⟩, [.invalidFragment "2" .interrupted]) := by
    rintro rfl
    simp [flushPending, clearPending]
  have hclear : (flushPending .interrupted ⟨some p, some a, b⟩).1.pending =
        none ∧
      (flushPending .interrupted ⟨some p, some a, b⟩).1.armedAt = none := by
    rcases hp with hp | hp
    · rw [hfl1 hp]
      exact ⟨rfl, rfl⟩
    · rw [hfl2 hp]
      exact ⟨rfl, rfl⟩
  have hdecomp : deliverLine ⟨some p, some a, b⟩ t u =
      ((processIdle t u (flushPending .interrupted ⟨some p, some a, b⟩).1).1,
       ((flushPending .interrupted ⟨some p, some a, b⟩).2 ++
        (processIdle t u
          (flushPending .interrupted ⟨some p, some a, b⟩).1).2).map
         (fun e => (t, e))) := by
    simp [deliverLine, fireDueTimer, ha, onData, hdig, hne, processToken, hu0]
  refine ⟨hclear.1, hclear.2, hdecomp, hfl1, hfl2, ?_⟩
  intro hval hu1 hu2
  have hval' : tokenValue u = 1 ∨ tokenValue u = 5 ∨ tokenValue u = 10 ∨
      tokenValue u = 20 := by simpa [ACCEPTED_COINS] using hval
  have hle : tokenValue u ≤ 20 := by rcases hval' with h | h | h | h <;> omega
  have hj : jsIsIntegerNumber u = true := by
    simp only [jsIsIntegerNumber, decide_eq_true_eq]
    exact lt_of_le_of_lt hle twenty_lt_JS_OVERFLOW
  have hd1 : p = "1" →
      deliverLine ⟨some p, some a, b⟩ t u =
        (⟨none, none, b + 1 + (tokenValue u : Int)⟩,
         [(t, .balanceEv (b + 1)), (t, .coinAccepted 1 (b + 1)),
          (t, .balanceEv (b + 1 + (tokenValue u : Int))),
          (t, .coinAccepted (tokenValue u) (b + 1 + (tokenValue u : Int)))]) := by
    rintro rfl
    simp [deliverLine, fireDueTimer, ha, onData, hdig, hne, processToken, hu0,
      flushPending, clearPending, persistBalance, processIdle, hu1, hu2, hj, hval]
  have hd2 : p = "2" →
      deliverLine ⟨some p, some a, b⟩ t u =
        (⟨none, none, b + (tokenValue u : Int)⟩,
         [(t, .invalidFragment "2" .interrupted),
          (t, .balanceEv (b + (tokenValue u : Int))),
          (t, .coinAccepted (tokenValue u) (b + (tokenValue u : Int)))]) := by
    rintro rfl
    simp [deliverLine, fireDueTimer, ha, onData, hdig, hne, processToken, hu0,
      flushPending, clearPending, persistBalance, processIdle, hu1, hu2, hj, hval]
  constructor
  · intro hp1
    exact ⟨hd1 hp1, by rw [hd1 hp1]; rfl, by rw [hd1 hp1]; rfl,
      by rw [hd1 hp1]; rfl⟩
  · intro hp2
    exact ⟨hd2 hp2, by rw [hd2 hp2]; rfl, by rw [hd2 hp2]; rfl,
      by rw [hd2 hp2]; rfl⟩

theorem C4_witness :
    creditsOf (deliverLine ⟨some "1", some 0, (0 : Int)⟩ 1 "5").2 =
      [1, tokenValue "5"] :=
  (((C4_interruption_order 0 0 1 "1" "5" (Or.inl rfl) (by decide) (by decide)
      (by decide) (by decide)).2.2.2.2.2 (by decide) (by decide)
      (by decide)).1 rfl).2.1

end Printbit
namespace Printbit
theorem attemptSerial_noPorts (outcomes : Nat → AttemptOutcome) (attempt : Nat)
    (h : outcomes attempt = .noPorts) :
    attemptSerial outcomes attempt =
      (⟨false, some "No serial ports found."⟩, 1, []) := by
  rw [attemptSerial, h]
end Printbit
namespace Printbit

/-- C7 refuted: a successful `POST /print` charge (minimum job price 1,
balance 5) moves the whole balance into earnings and sets the balance to
0, and it is not the administrative reset — so the reset is not the only
operation in the system that decreases the balance to zero. -/
theorem C7_counterexample :
    sysStep ⟨⟨none, none, 5⟩, 0⟩ (.printCharge 1 true) = ⟨⟨none, none, 0⟩, 5⟩ ∧
    SysOp.printCharge 1 true ≠ SysOp.balanceReset := by
  decide

/-- C7 as amended: decoder activity never decreases the balance (credits
only add), and every operation that decreases the balance is one of the
administrative reset, the `POST /print` charge (which zeroes it), the
`POST /api/confirm-payment` debit, or the `POST /api/copy/jobs` debit. -/
theorem C7_amended_debit_ops (st : SysState) (op : SysOp) :
    (op.isDecoderOp = true → st.dec.balance ≤ (sysStep st op).dec.balance) ∧
    ((sysStep st op).dec.balance < st.dec.balance → op.mayDebit = true) := by
  constructor
  · intro hop
    cases op with
    | serialLine now line => exact deliverLine_balance_le st.dec now line
    | serialTimeoutFlush => exact finishTimer_balance_le st.dec
    | balanceReset => simp [SysOp.isDecoderOp] at hop
    | addTestCoin v => simp [SysOp.isDecoderOp] at hop
    | printCharge m ok => simp [SysOp.isDecoderOp] at hop
    | confirmPayment r ok => simp [SysOp.isDecoderOp] at hop
    | copyJobCharge r ok => simp [SysOp.isDecoderOp] at hop
  · intro hlt
    cases op with
    | serialLine now line =>
      simp only [sysStep] at hlt
      exact absurd hlt (not_lt.mpr (deliverLine_balance_le st.dec now line))
    | serialTimeoutFlush =>
      simp only [sysStep] at hlt
      exact absurd hlt (not_lt.mpr (finishTimer_balance_le st.dec))
    | balanceReset => rfl
    | addTestCoin v =>
      exfalso
      simp only [sysStep] at hlt
      split at hlt
      · dsimp only at hlt
        omega
      · exact absurd hlt (lt_irrefl _)
    | printCharge m ok => rfl
    | confirmPayment r ok => rfl
    | copyJobCharge r ok => rfl

theorem C7_amended_witness :
    (3 : Int) ≤ (sysStep ⟨⟨none, none, 3⟩, 0⟩ (.serialLine 0 "5")).dec.balance :=
  (C7_amended_debit_ops ⟨⟨none, none, 3⟩, 0⟩ (.serialLine 0 "5")).1 rfl

theorem attemptSerial_openOk (outcomes : Nat → AttemptOutcome) (attempt : Nat)
    (h : outcomes attempt = .openOk) :
    attemptSerial outcomes attempt = (⟨true, none⟩, 1, []) := by
  rw [attemptSerial, h]

theorem attemptSerial_openErr_retry (outcomes : Nat → AttemptOutcome)
    (attempt : Nat) (msg : String) (h : outcomes attempt = .openErr msg)
    (hd : isAccessDenied msg = true) (hlt : attempt < MAX_RETRIES) :
    attemptSerial outcomes attempt =
      ((attemptSerial outcomes (attempt + 1)).1,
       (attemptSerial outcomes (attempt + 1)).2.1 + 1,
       RETRY_INTERVAL_MS :: (attemptSerial outcomes (attempt + 1)).2.2) := by
  rw [attemptSerial, h]
  dsimp only
  rw [dif_pos ⟨hd, hlt⟩]

theorem attemptSerial_openErr_stop (outcomes : Nat → AttemptOutcome)
    (attempt : Nat) (msg : String) (h : outcomes attempt = .openErr msg)
    (hstop : ¬ (isAccessDenied msg = true ∧ attempt < MAX_RETRIES)) :
    attemptSerial outcomes attempt = (⟨false, some msg⟩, 1, []) := by
  rw [attemptSerial, h]
  dsimp only
  rw [dif_neg hstop]

theorem attemptSerial_bound (outcomes : Nat → AttemptOutcome) :
    ∀ n attempt, MAX_RETRIES - attempt ≤ n →
      (attemptSerial outcomes attempt).2.1 ≤ MAX_RETRIES - attempt + 1 ∧
      (attemptSerial outcomes attempt).2.2.length + 1 =
        (attemptSerial outcomes attempt).2.1 ∧
      (∀ d ∈ (attemptSerial outcomes attempt).2.2, d = RETRY_INTERVAL_MS) ∧
      (1 < (attemptSerial outcomes attempt).2.1 →
        ∃ msg, outcomes attempt = .openErr msg ∧
          isAccessDenied msg = true) := by
  intro n
  induction n with
  | zero =>
    intro attempt hn
    rcases ho : outcomes attempt with _ | _ | msg
    · rw [attemptSerial_noPorts outcomes attempt ho]
      exact ⟨by dsimp only; omega, rfl, by simp, by simp⟩
    · rw [attemptSerial_openOk outcomes attempt ho]
      exact ⟨by dsimp only; omega, rfl, by simp, by simp⟩
    · have hstop : ¬ (isAccessDenied msg = true ∧ attempt < MAX_RETRIES) := by
        rintro ⟨_, hlt⟩
        omega
      rw [attemptSerial_openErr_stop outcomes attempt msg ho hstop]
      exact ⟨by dsimp only; omega, rfl, by simp, by simp⟩
  | succ n ih =>
    intro attempt hn
    rcases ho : outcomes attempt with _ | _ | msg
    · rw [attemptSerial_noPorts outcomes attempt ho]
      exact ⟨by dsimp only; omega, rfl, by simp, by simp⟩
    · rw [attemptSerial_openOk outcomes attempt ho]
      exact ⟨by dsimp only; omega, rfl, by simp, by simp⟩
    · by_cases hd : isAccessDenied msg = true ∧ attempt < MAX_RETRIES
      · rw [attemptSerial_openErr_retry outcomes attempt msg ho hd.1 hd.2]
        have hrec := ih (attempt + 1) (by omega)
        refine ⟨?_, ?_, ?_, ?_⟩
        · have h1 := hrec.1
          have h2 := hd.2
          dsimp only
          omega
        · have h2 := hrec.2.1
          dsimp only
          simp only [List.length_cons]
          omega
        · intro d hdm
          rcases List.mem_cons.mp hdm with rfl | hm
          · rfl
          · exact hrec.2.2.1 d hm
        · intro _
          exact ⟨msg, rfl, hd.1⟩
      · rw [attemptSerial_openErr_stop outcomes attempt msg ho hd]
        exact ⟨by dsimp only; omega, rfl, by simp, by simp⟩

theorem attemptSerial_exhaust (outcomes : Nat → AttemptOutcome)
    (msgs : Nat → String) (hall : ∀ i, outcomes i = .openErr (msgs i))
    (hacc : ∀ i, isAccessDenied (msgs i) = true) :
    ∀ n attempt, attempt + n = MAX_RETRIES →
      attemptSerial outcomes attempt =
        (⟨false, some (msgs MAX_RETRIES)⟩, n + 1,
         List.replicate n RETRY_INTERVAL_MS) := by
  intro n
  induction n with
  | zero =>
    intro attempt h0
    have ha : attempt = MAX_RETRIES := by omega
    subst ha
    rw [attemptSerial_openErr_stop outcomes MAX_RETRIES (msgs MAX_RETRIES)
      (hall _) (by rintro ⟨_, hlt⟩; omega)]
    simp
  | succ n ih =>
    intro attempt h
    have hlt : attempt < MAX_RETRIES := by omega
    rw [attemptSerial_openErr_retry outcomes attempt (msgs attempt) (hall _)
      (hacc _) hlt]
    rw [ih (attempt + 1) (by omega)]
    simp [List.replicate_succ]

end Printbit
namespace Printbit

/-- C8: the serial-open retry policy.  The retry interval is 5000 ms and
the retry cap is 12.  From the initial call (`attempt = 0`): at most
MAX_RETRIES + 1 attempts happen in total (so at most 12 retries); there
is one scheduled retry per attempt after the first, each waiting exactly
RETRY_INTERVAL_MS; a retry happens at all only when the first open fails
with an access-denied error; a non-access open error records the message
as the last error with no retry; and when every attempt fails with an
access-denied error the loop performs exactly MAX_RETRIES retries and
then stops for good, recording the last attempt's error. -/
theorem C8_retry_policy (outcomes : Nat → AttemptOutcome) :
    RETRY_INTERVAL_MS = 5000 ∧ MAX_RETRIES = 12 ∧
    (attemptSerial outcomes 0).2.1 ≤ MAX_RETRIES + 1 ∧
    (attemptSerial outcomes 0).2.2.length + 1 = (attemptSerial outcomes 0).2.1 ∧
    (∀ d ∈ (attemptSerial outcomes 0).2.2, d = RETRY_INTERVAL_MS) ∧
    (1 < (attemptSerial outcomes 0).2.1 →
      ∃ msg, outcomes 0 = .openErr msg ∧ isAccessDenied msg = true) ∧
    (∀ msg, outcomes 0 = .openErr msg → isAccessDenied msg = false →
      attemptSerial outcomes 0 = (⟨false, some msg⟩, 1, [])) ∧
    (∀ msgs : Nat → String, (∀ i, outcomes i = .openErr (msgs i)) →
      (∀ i, isAccessDenied (msgs i) = true) →
      attemptSerial outcomes 0 =
        (⟨false, some (msgs MAX_RETRIES)⟩, MAX_RETRIES + 1,
         List.replicate MAX_RETRIES RETRY_INTERVAL_MS)) := by
  have hb := attemptSerial_bound outcomes MAX_RETRIES 0 (by omega)
  refine ⟨rfl, rfl, ?_, hb.2.1, hb.2.2.1, hb.2.2.2, ?_, ?_⟩
  · have h1 := hb.1
    omega
  · intro msg ho hnd
    exact attemptSerial_openErr_stop outcomes 0 msg ho (by simp [hnd])
  · intro msgs hall hacc
    have h := attemptSerial_exhaust outcomes msgs hall hacc MAX_RETRIES 0
      (by omega)
    simpa using h

theorem C8_witness :
    (attemptSerial (fun _ => AttemptOutcome.openOk) 0).2.1 ≤ MAX_RETRIES + 1 :=
  (C8_retry_policy (fun _ => AttemptOutcome.openOk)).2.2.1

end Printbit
